import Mathlib

/-!
Shallow embedding of the `rust-blockchain` repository (src/merkle_tree.rs,
src/block.rs, src/blockchain.rs) and proofs about its spec claims.

The payload type parameter `T : AsRef<[u8]> + Clone` of the Rust code is
instantiated at byte strings (`List Nat`), the canonical byte-viewable type:
the code only uses `T` through its byte view (for hashing) and through `==`
(for `forget_leaf`), and on byte strings the two coincide.

Machine integers are modelled as `Nat` with explicit `% 2^w` truncation where
the Rust types wrap (SHA-256 internals work on `u32`); hashes are 32-byte
lists produced by a full executable SHA-256.
-/

set_option maxRecDepth 40000

namespace RustBlockchain

/-- Byte strings; each entry is intended to be `< 256`. -/
abbrev Bytes : Type := List Nat

/-- `type SHAHash = [u8; 32]` from the source. -/
abbrev SHAHash : Type := Bytes

/-- `type Nonce = u128` from the source. -/
abbrev Nonce : Type := Nat

/-! ## SHA-256 (the `sha2::Sha256` dependency, executable) -/

/-- Truncate to 32 bits (`u32` arithmetic). -/
def w32 (n : Nat) : Nat := n % 4294967296

/-- 32-bit right rotation (assumes `x < 2^32`, `0 < n < 32`). -/
def rotr (x n : Nat) : Nat := w32 ((x >>> n) ||| (x <<< (32 - n)))

/-- 32-bit bitwise complement. -/
def not32 (x : Nat) : Nat := x ^^^ 4294967295

/-- SHA-256 `Ch` function. -/
def shaCh (x y z : Nat) : Nat := (x &&& y) ^^^ (not32 x &&& z)

/-- SHA-256 `Maj` function. -/
def shaMaj (x y z : Nat) : Nat := (x &&& y) ^^^ (x &&& z) ^^^ (y &&& z)

/-- SHA-256 `Σ0`. -/
def bigSigma0 (x : Nat) : Nat := rotr x 2 ^^^ rotr x 13 ^^^ rotr x 22

/-- SHA-256 `Σ1`. -/
def bigSigma1 (x : Nat) : Nat := rotr x 6 ^^^ rotr x 11 ^^^ rotr x 25

/-- SHA-256 `σ0`. -/
def smallSigma0 (x : Nat) : Nat := rotr x 7 ^^^ rotr x 18 ^^^ (x >>> 3)

/-- SHA-256 `σ1`. -/
def smallSigma1 (x : Nat) : Nat := rotr x 17 ^^^ rotr x 19 ^^^ (x >>> 10)

/-- SHA-256 round constants. -/
def sha256K : List Nat :=
  [1116352408, 1899447441, 3049323471, 3921009573, 961987163, 1508970993,
   2453635748, 2870763221, 3624381080, 310598401, 607225278, 1426881987,
   1925078388, 2162078206, 2614888103, 3248222580, 3835390401, 4022224774,
   264347078, 604807628, 770255983, 1249150122, 1555081692, 1996064986,
   2554220882, 2821834349, 2952996808, 3210313671, 3336571891, 3584528711,
   113926993, 338241895, 666307205, 773529912, 1294757372, 1396182291,
   1695183700, 1986661051, 2177026350, 2456956037, 2730485921, 2820302411,
   3259730800, 3345764771, 3516065817, 3600352804, 4094571909, 275423344,
   430227734, 506948616, 659060556, 883997877, 958139571, 1322822218,
   1537002063, 1747873779, 1955562222, 2024104815, 2227730452, 2361852424,
   2428436474, 2756734187, 3204031479, 3329325298]

/-- SHA-256 internal state: eight 32-bit words. -/
structure Sha256State where
  a : Nat
  b : Nat
  c : Nat
  d : Nat
  e : Nat
  f : Nat
  g : Nat
  h : Nat
deriving Repr, DecidableEq

/-- SHA-256 initial hash state. -/
def sha256InitH : Sha256State :=
  ⟨1779033703, 3144134277, 1013904242, 2773480762,
   1359893119, 2600822924, 528734635, 1541459225⟩

/-- One SHA-256 compression round; `kw` is the pair of round constant and
message-schedule word. -/
def sha256Round (st : Sha256State) (kw : Nat × Nat) : Sha256State :=
  let t1 := w32 (st.h + bigSigma1 st.e + shaCh st.e st.f st.g + kw.1 + kw.2)
  let t2 := w32 (bigSigma0 st.a + shaMaj st.a st.b st.c)
  ⟨w32 (t1 + t2), st.a, st.b, st.c, w32 (st.d + t1), st.e, st.f, st.g⟩

/-- Extend a 16-word message block with `n` further schedule words. -/
def extendSchedule (ws : List Nat) : Nat → List Nat
  | 0 => ws
  | n + 1 =>
    let len := ws.length
    let next := w32 (smallSigma1 (ws.getD (len - 2) 0) + ws.getD (len - 7) 0 +
      smallSigma0 (ws.getD (len - 15) 0) + ws.getD (len - 16) 0)
    extendSchedule (ws ++ [next]) n

/-- Compress one 16-word message block into the running state. -/
def compressBlock (st : Sha256State) (ws : List Nat) : Sha256State :=
  let rounds := (sha256K.zip (extendSchedule ws 48)).foldl sha256Round st
  ⟨w32 (st.a + rounds.a), w32 (st.b + rounds.b), w32 (st.c + rounds.c),
   w32 (st.d + rounds.d), w32 (st.e + rounds.e), w32 (st.f + rounds.f),
   w32 (st.g + rounds.g), w32 (st.h + rounds.h)⟩

/-- Group bytes into big-endian 32-bit words (drops a trailing partial group;
padded SHA-256 input is always a multiple of 4 bytes). -/
def bytesToWords : List Nat → List Nat
  | b0 :: b1 :: b2 :: b3 :: rest =>
    (b0 * 16777216 + b1 * 65536 + b2 * 256 + b3) :: bytesToWords rest
  | _ => []

/-- Big-endian 8-byte encoding of a 64-bit value. -/
def be64 (n : Nat) : List Nat :=
  [n / 72057594037927936 % 256, n / 281474976710656 % 256,
   n / 1099511627776 % 256, n / 4294967296 % 256,
   n / 16777216 % 256, n / 65536 % 256, n / 256 % 256, n % 256]

/-- SHA-256 message padding: `0x80`, zeros to 56 mod 64, 64-bit bit length. -/
def sha256Pad (msg : List Nat) : List Nat :=
  let zeros := (56 + 64 - (msg.length + 1) % 64) % 64
  msg ++ [128] ++ List.replicate zeros 0 ++ be64 (8 * msg.length)

/-- Split a word list into 16-word message blocks; `fuel` bounds the number
of blocks (structural recursion on `fuel` so that the kernel can evaluate;
`fuel = ws.length` always suffices since each step drops 16 words). -/
def wordBlocksAux : Nat → List Nat → List (List Nat)
  | _, [] => []
  | 0, _ :: _ => []
  | fuel + 1, w :: ws => (w :: ws).take 16 :: wordBlocksAux fuel ((w :: ws).drop 16)

/-- Split a word list into 16-word message blocks. -/
def wordBlocks (ws : List Nat) : List (List Nat) :=
  wordBlocksAux ws.length ws

/-- Big-endian bytes of one 32-bit word. -/
def wordToBytes (w : Nat) : List Nat :=
  [w / 16777216 % 256, w / 65536 % 256, w / 256 % 256, w % 256]

/-- Serialize the final SHA-256 state to its 32-byte digest. -/
def stateToBytes (st : Sha256State) : List Nat :=
  wordToBytes st.a ++ wordToBytes st.b ++ wordToBytes st.c ++ wordToBytes st.d ++
  wordToBytes st.e ++ wordToBytes st.f ++ wordToBytes st.g ++ wordToBytes st.h

/-- SHA-256 digest of a byte string, as 32 bytes. This models every
`Sha256::new().chain(...).finalize()` / `.digest(...)` call in the source
(chaining is concatenation of the inputs). -/
def sha256Bytes (msg : List Nat) : List Nat :=
  stateToBytes ((wordBlocks (bytesToWords (sha256Pad msg))).foldl compressBlock sha256InitH)

/-! ## Merkle tree (src/merkle_tree.rs) -/

/-- `enum MerkleTree<T>` from src/merkle_tree.rs, with `T` instantiated at
byte strings. `node hash left right` is the `Node` variant, `leaf hash data`
the `Leaf` variant whose `data : Option T` is `none` for a pruned leaf. -/
inductive MerkleTree : Type where
  | node (hash : SHAHash) (left right : MerkleTree)
  | leaf (hash : SHAHash) (data : Option Bytes)
deriving Repr, DecidableEq

namespace MerkleTree

/-- `MerkleTree::get_root_hash` (src/merkle_tree.rs:117-122). -/
def get_root_hash : MerkleTree → SHAHash
  | node hash _ _ => hash
  | leaf hash _ => hash

/-- Recursion core of `MerkleTree::new` (src/merkle_tree.rs:90-113); `fuel`
bounds the recursion depth (structural recursion on `fuel` so that the
kernel can evaluate; `fuel = data.length` always suffices since both chunks
are strictly shorter than the input). The Rust panics on an empty slice,
modelled as `none`. For two or more items it takes the first two chunks of
`data.chunks(data.len() / 2)`: the first `len / 2` items and the following
(at most) `len / 2` items — for odd lengths `≥ 3` the last chunk is never
consumed. -/
def newAux : Nat → List Bytes → Option MerkleTree
  | _, [] => none
  | _, [x] => some (leaf (sha256Bytes x) (some x))
  | 0, _ :: _ :: _ => none
  | fuel + 1, x :: y :: rest =>
    let data := x :: y :: rest
    let chunkSize := data.length / 2
    match newAux fuel (data.take chunkSize), newAux fuel ((data.drop chunkSize).take chunkSize) with
    | some left_subtree, some right_subtree =>
      some (node (sha256Bytes (left_subtree.get_root_hash ++ right_subtree.get_root_hash))
        left_subtree right_subtree)
    | _, _ => none

/-- `MerkleTree::new` (src/merkle_tree.rs:90-113). -/
def new (data : List Bytes) : Option MerkleTree :=
  newAux data.length data

/-- `MerkleTree::verify` (src/merkle_tree.rs:125-147). -/
def verify : MerkleTree → Bool
  | leaf _ none => true
  | leaf hash (some t) => decide (hash = sha256Bytes t)
  | node hash left right =>
    decide (hash = sha256Bytes (left.get_root_hash ++ right.get_root_hash)) &&
      (left.verify && right.verify)

/-- `MerkleTree::get_currently_stored_data` (src/merkle_tree.rs:153-169). -/
def get_currently_stored_data : MerkleTree → List Bytes
  | leaf _ none => []
  | leaf _ (some data) => [data]
  | node _ left right =>
    left.get_currently_stored_data ++ right.get_currently_stored_data

/-- `MerkleTree::contains_hash` (src/merkle_tree.rs:228-237). -/
def contains_hash : MerkleTree → SHAHash → Bool
  | leaf hash _, search_hash => decide (hash = search_hash)
  | node hash left right, search_hash =>
    decide (hash = search_hash) || (left.contains_hash search_hash ||
      right.contains_hash search_hash)

/-- `MerkleTree::restore_element` (src/merkle_tree.rs:245-267). The `&mut self`
method is modelled as returning the flag together with the updated tree; the
first `match` arm fires on any leaf (pruned or not) whose stored hash equals
the digest of the element, and the short-circuit `||` tries the left subtree
before the right. -/
def restore_element (element : Bytes) : MerkleTree → Bool × MerkleTree
  | leaf hash data =>
    if hash = sha256Bytes element then (true, leaf hash (some element))
    else (false, leaf hash data)
  | node hash left right =>
    let resL := restore_element element left
    if resL.1 then (true, node hash resL.2 right)
    else
      let resR := restore_element element right
      (resR.1, node hash resL.2 resR.2)

/-- `MerkleTree::insert_subtree` (src/merkle_tree.rs:277-309). -/
def insert_subtree : MerkleTree → MerkleTree → Bool × MerkleTree
  | t, subtree =>
    if t.get_root_hash = subtree.get_root_hash then (true, subtree)
    else match t with
    | leaf hash data => (false, leaf hash data)
    | node hash left right =>
      if left.get_root_hash = subtree.get_root_hash then (true, node hash subtree right)
      else if right.get_root_hash = subtree.get_root_hash then (true, node hash left subtree)
      else if left.contains_hash subtree.get_root_hash then
        let res := insert_subtree left subtree
        (res.1, node hash res.2 right)
      else if right.contains_hash subtree.get_root_hash then
        let res := insert_subtree right subtree
        (res.1, node hash left res.2)
      else (false, node hash left right)

/-- `MerkleTree::restore_subtree` (src/merkle_tree.rs:326-328): the source is
the stub `false // ToDo`, so it never mutates and always reports failure. -/
def restore_subtree (t : MerkleTree) (subtree : MerkleTree) : Bool × MerkleTree :=
  (false, t)

/-- `MerkleTree::shrink_to_minimum` (src/merkle_tree.rs:333-338). -/
def shrink_to_minimum (t : MerkleTree) : MerkleTree :=
  leaf t.get_root_hash none

/-- `MerkleTree::forget_leaf` (src/merkle_tree.rs:352-370). -/
def forget_leaf (element : Bytes) : MerkleTree → Bool × MerkleTree
  | leaf hash none => (false, leaf hash none)
  | leaf hash (some data) =>
    if data = element then (true, leaf hash none)
    else (false, leaf hash (some data))
  | node hash left right =>
    let resL := forget_leaf element left
    if resL.1 then (true, node hash resL.2 right)
    else
      let resR := forget_leaf element right
      (resR.1, node hash resL.2 resR.2)

/-- `MerkleTree::forget_all_leaves` (src/merkle_tree.rs:379-391). -/
def forget_all_leaves : MerkleTree → MerkleTree
  | leaf hash _ => leaf hash none
  | node hash left right =>
    node hash left.forget_all_leaves right.forget_all_leaves

/-- `MerkleTree::forget_subtree` (src/merkle_tree.rs:399-412). -/
def forget_subtree (hash : SHAHash) (t : MerkleTree) : Bool × MerkleTree :=
  if hash = t.get_root_hash then (true, t.shrink_to_minimum)
  else match t with
  | leaf h d => (false, leaf h d)
  | node h left right =>
    let resL := forget_subtree hash left
    if resL.1 then (true, node h resL.2 right)
    else
      let resR := forget_subtree hash right
      (resR.1, node h resL.2 resR.2)

end MerkleTree

/-! ## Block (src/block.rs) -/

/-- `const ZEROS : u8 = 5` (src/block.rs:12). -/
def ZEROS : Nat := 5

/-- `static INITIAL_HASH : SHAHash = [0u8; 32]` (src/block.rs:17). -/
def INITIAL_HASH : SHAHash := List.replicate 32 0

/-- `struct Block<T>` from src/block.rs, `T` instantiated at byte strings. -/
structure Block where
  prev_hash : SHAHash
  nonce : Nonce
  merkle_tree : MerkleTree
deriving Repr, DecidableEq

namespace Block

/-- `u128::to_be_bytes`: the 16-byte big-endian encoding of the nonce. -/
def nonceBeBytes (n : Nonce) : Bytes :=
  (List.range 16).map (fun i => n / 2 ^ (8 * (15 - i)) % 256)

/-- `Block::calculate_hash` (src/block.rs:65-71): SHA-256 over
`prev_hash ‖ nonce.to_be_bytes() ‖ merkle_tree.get_root_hash()`. -/
def calculate_hash (b : Block) : SHAHash :=
  sha256Bytes (b.prev_hash ++ nonceBeBytes b.nonce ++ b.merkle_tree.get_root_hash)

/-- The bit loop of `Block::verify_nonce` (src/block.rs:95-102): check that
the top `n` bits of `byte` are zero, walking a mask from `0b1000_0000`. -/
def checkBitsLoop (byte pattern : Nat) : Nat → Bool
  | 0 => true
  | n + 1 =>
    if byte &&& pattern ≠ 0 then false
    else checkBitsLoop byte (pattern >>> 1) n

/-- Body of `Block::verify_nonce` (src/block.rs:78-103) on the already
computed hash: the first `zeros / 8` bytes of the hash must be zero, and
when `zeros % 8 > 0` the leading `zeros % 8` bits of the next byte must be
zero (checked by the mask loop). -/
def checkLeadingZeros (zeros : Nat) (hash : Bytes) : Bool :=
  let no_of_null_bytes := zeros / 8
  let no_of_0_bits := zeros % 8
  if (hash.take no_of_null_bytes).any (fun byte => byte ≠ 0) then false
  else if no_of_0_bits = 0 then true
  else checkBitsLoop (hash.getD no_of_null_bytes 0) 128 no_of_0_bits

/-- `Block::verify_nonce` (src/block.rs:75-104) generalized over the
difficulty (the source fixes it to the constant `ZEROS`). -/
def verify_nonce_with (zeros : Nat) (b : Block) : Bool :=
  checkLeadingZeros zeros b.calculate_hash

/-- `Block::verify_nonce` (src/block.rs:75-104) at the source's difficulty. -/
def verify_nonce (b : Block) : Bool := verify_nonce_with ZEROS b

/-- `Block::verify_merkle_tree` (src/block.rs:107-109). -/
def verify_merkle_tree (b : Block) : Bool := b.merkle_tree.verify

/-- `Block::verify` (src/block.rs:114-116). -/
def verify (b : Block) : Bool := b.verify_nonce && b.verify_merkle_tree

/-- `Block::clear_merkle_tree` (src/block.rs:120-122). -/
def clear_merkle_tree (b : Block) : Block :=
  ⟨b.prev_hash, b.nonce, b.merkle_tree.shrink_to_minimum⟩

/-- `Block::restore_merkle_tree` (src/block.rs:129-136). -/
def restore_merkle_tree (b : Block) (mtree : MerkleTree) : Bool × Block :=
  if mtree.verify && decide (mtree.get_root_hash = b.merkle_tree.get_root_hash) then
    (true, ⟨b.prev_hash, b.nonce, mtree⟩)
  else (false, b)

end Block

/-! ## Blockchain (src/blockchain.rs) -/

/-- `struct Blockchain<T>` from src/blockchain.rs; the `append_mutex` field
only serializes `append_block` calls and carries no data, so the state is
the block list. -/
structure Blockchain where
  blocks : List Block
deriving Repr, DecidableEq

namespace Blockchain

/-- `Blockchain::length` (src/blockchain.rs:28-30). -/
def length (c : Blockchain) : Nat := c.blocks.length

/-- `Blockchain::hash_of_last_block` (src/blockchain.rs:34-39). -/
def hash_of_last_block (c : Blockchain) : SHAHash :=
  match c.blocks.getLast? with
  | some last_block => last_block.calculate_hash
  | none => INITIAL_HASH

/-- Loop body of `Blockchain::verify` (src/blockchain.rs:50-64). The
`previous_hash` accumulator is never updated inside the loop: the update
`previous_hash = block.calculate_hash()` is commented out in the source
(line 60), so every block is compared against the initial value. -/
def verifyLoop (previous_hash : SHAHash) : List Block → Bool
  | [] => true
  | block :: rest =>
    let valid_link_to_prev_block := decide (block.prev_hash = previous_hash)
    let valid_block := block.verify
    if !valid_link_to_prev_block || !valid_block then false
    else verifyLoop previous_hash rest

/-- `Blockchain::verify` (src/blockchain.rs:50-64). -/
def verify (c : Blockchain) : Bool := verifyLoop INITIAL_HASH c.blocks

/-- `Blockchain::append_block` (src/blockchain.rs:74-87); the mutex guard is
dropped (single-threaded semantics), the `&mut self` method returns the flag
together with the updated chain. -/
def append_block (c : Blockchain) (block : Block) : Bool × Blockchain :=
  let valid_block := block.verify
  let valid_link_to_prev_block := decide (block.prev_hash = c.hash_of_last_block)
  if valid_block && valid_link_to_prev_block then (true, ⟨c.blocks ++ [block]⟩)
  else (false, c)

end Blockchain

/-! ## Specification-side definitions used to state the claims -/

/-- The `i`-th bit of a byte string, counted from the most significant bit of
the first byte: bit `i` lives in byte `i / 8` at big-endian position
`i % 8`. "The hash has at least `z` leading zero bits" is
`∀ i < z, nthBitHigh hash i = 0`. -/
def nthBitHigh (bytes : Bytes) (i : Nat) : Nat :=
  (bytes.getD (i / 8) 0 >>> (7 - i % 8)) % 2

namespace MerkleTree

/-- Number of leaves of the tree whose stored hash equals `h`. -/
def leafHashCount (h : SHAHash) : MerkleTree → Nat
  | leaf hash _ => if hash = h then 1 else 0
  | node _ left right => leafHashCount h left + leafHashCount h right

/-- Whether some leaf of the tree has stored hash `h` (internal-node hashes
do not count: `restore_element` only ever fills leaves). -/
def hasLeafWithHash (h : SHAHash) : MerkleTree → Bool
  | leaf hash _ => decide (hash = h)
  | node _ left right => hasLeafWithHash h left || hasLeafWithHash h right

/-- Overwrite the payload of the leftmost leaf whose stored hash is `h` with
`x` (identity when no such leaf exists). This is the behaviour
`restore_element` actually implements, used to state the amended claim C6. -/
def fillLeftmostLeafWithHash (h : SHAHash) (x : Bytes) : MerkleTree → MerkleTree
  | leaf hash d => if hash = h then leaf hash (some x) else leaf hash d
  | node hash left right =>
    if hasLeafWithHash h left then node hash (fillLeftmostLeafWithHash h x left) right
    else node hash left (fillLeftmostLeafWithHash h x right)

end MerkleTree

/-! ## Concrete data for counterexamples and witnesses -/

/-- One-leaf Merkle tree holding the byte string `[0]`. -/
def chainTree0 : MerkleTree := .leaf (sha256Bytes [0]) (some [0])

/-- One-leaf Merkle tree holding the byte string `[1]`. -/
def chainTree1 : MerkleTree := .leaf (sha256Bytes [1]) (some [1])

/-- A mined genesis block: `prev_hash` is the all-zero sentinel and nonce 4
makes `calculate_hash` start with five zero bits (its first byte is 1). -/
def chainBlock0 : Block := ⟨INITIAL_HASH, 4, chainTree0⟩

/-- A mined successor block: `prev_hash` is the recomputed hash of
`chainBlock0`, and nonce 102 satisfies the proof-of-work check. -/
def chainBlock1 : Block := ⟨chainBlock0.calculate_hash, 102, chainTree1⟩

/-- A valid two-leaf tree whose left leaf holds `[0]` and whose right leaf is
pruned but carries the same stored hash `digest [0]`. -/
def cexTree6 : MerkleTree :=
  .node (sha256Bytes (sha256Bytes [0] ++ sha256Bytes [0]))
    (.leaf (sha256Bytes [0]) (some [0]))
    (.leaf (sha256Bytes [0]) none)

/-- A valid three-leaf tree: a pruned leaf with stored hash `digest [0]` on
the left, and on the right a subtree holding `[1]` and `[0]`. -/
def cexTree8 : MerkleTree :=
  .node (sha256Bytes (sha256Bytes [0] ++
      sha256Bytes (sha256Bytes [1] ++ sha256Bytes [0])))
    (.leaf (sha256Bytes [0]) none)
    (.node (sha256Bytes (sha256Bytes [1] ++ sha256Bytes [0]))
      (.leaf (sha256Bytes [1]) (some [1]))
      (.leaf (sha256Bytes [0]) (some [0])))

/-! ## Theorems -/

/-- Claim C1 (code_bug evidence): a two-block chain built by `append_block`
— both blocks valid, `chainBlock1.prev_hash` equal to the recomputed hash of
`chainBlock0` — is rejected by `Blockchain::verify`, because the loop never
updates its `previous_hash` accumulator (the update is commented out at
src/blockchain.rs:60) and so compares every block against `INITIAL_HASH`.
The claim (and the function's own doc comment, and the older draft at
src/lib.rs:177-184) says such a chain verifies. -/
theorem blockchain_verify_rejects_linked_chain :
    (Blockchain.append_block ⟨[]⟩ chainBlock0).1 = true ∧
    (Blockchain.append_block (Blockchain.append_block ⟨[]⟩ chainBlock0).2 chainBlock1).1 = true ∧
    (Blockchain.append_block (Blockchain.append_block ⟨[]⟩ chainBlock0).2 chainBlock1).2 =
      ⟨[chainBlock0, chainBlock1]⟩ ∧
    chainBlock1.prev_hash = chainBlock0.calculate_hash ∧
    chainBlock0.verify = true ∧ chainBlock1.verify = true ∧
    Blockchain.verify ⟨[chainBlock0, chainBlock1]⟩ = false := by
  decide

/-- Claim C2 (code_bug evidence): `MerkleTree::new` on the three-item
sequence `[[0], [1], [2]]` silently drops the last item: `chunks(3 / 2)`
yields three one-item chunks and only the first two are consumed
(src/merkle_tree.rs:100-103), so the stored data is `[[0], [1]]`, not the
input sequence as the claim (and the constructor's doc comment) requires. -/
theorem merkle_new_drops_odd_element :
    (MerkleTree.new [[0], [1], [2]]).map MerkleTree.get_currently_stored_data ≠
      some [[0], [1], [2]] ∧
    (MerkleTree.new [[0], [1], [2]]).map MerkleTree.get_currently_stored_data =
      some [[0], [1]] := by
  decide

/-- Claim C3 (code_bug evidence): `MerkleTree::restore_subtree` is the stub
`false // ToDo` (src/merkle_tree.rs:326-328), so even a candidate whose root
hash trivially occurs in the tree (the tree itself) is rejected, against the
claim and the function's own doc comment. -/
theorem restore_subtree_stub_false :
    (MerkleTree.leaf INITIAL_HASH none).contains_hash
      (MerkleTree.leaf INITIAL_HASH none).get_root_hash = true ∧
    MerkleTree.restore_subtree (MerkleTree.leaf INITIAL_HASH none)
      (MerkleTree.leaf INITIAL_HASH none) =
      (false, MerkleTree.leaf INITIAL_HASH none) := by
  decide

/-- Claim C5: `Blockchain::append_block` accepts exactly when the block
verifies and its `prev_hash` is the current tip hash; on success it pushes
the block at the end, on rejection the chain (hence its length) is
unchanged. -/
theorem append_block_accepts_iff (c : Blockchain) (b : Block) :
    ((Blockchain.append_block c b).1 = true ↔
      (b.verify = true ∧ b.prev_hash = c.hash_of_last_block)) ∧
    ((Blockchain.append_block c b).1 = true →
      (Blockchain.append_block c b).2 = ⟨c.blocks ++ [b]⟩) ∧
    ((Blockchain.append_block c b).1 = false →
      (Blockchain.append_block c b).2 = c ∧
        (Blockchain.append_block c b).2.length = c.length) := by
  by_cases h1 : b.verify = true <;>
    by_cases h2 : b.prev_hash = c.hash_of_last_block <;>
      simp [Blockchain.append_block, h1, h2]

/-- Witness for C5 at a concrete input: the unmined block
`⟨INITIAL_HASH, 0, chainTree0⟩` fails proof-of-work, so appending it to the
empty chain is rejected and the chain is unchanged. -/
theorem append_block_accepts_iff_witness :
    (Blockchain.append_block ⟨[]⟩ ⟨INITIAL_HASH, 0, chainTree0⟩).1 = false ∧
    (Blockchain.append_block ⟨[]⟩ ⟨INITIAL_HASH, 0, chainTree0⟩).2 = (⟨[]⟩ : Blockchain) :=
  ⟨by decide,
   ((append_block_accepts_iff ⟨[]⟩ ⟨INITIAL_HASH, 0, chainTree0⟩).2.2 (by decide)).1⟩

/-- Claim C7: `Block::restore_merkle_tree` succeeds exactly when the
candidate tree verifies and has the same root hash as the block's current
tree; on success only the tree is replaced (`prev_hash` and `nonce` are
kept), on failure the block is unchanged. -/
theorem restore_merkle_tree_gated (b : Block) (t : MerkleTree) :
    ((b.restore_merkle_tree t).1 = true ↔
      (t.verify = true ∧ t.get_root_hash = b.merkle_tree.get_root_hash)) ∧
    ((b.restore_merkle_tree t).1 = true →
      (b.restore_merkle_tree t).2 = ⟨b.prev_hash, b.nonce, t⟩) ∧
    ((b.restore_merkle_tree t).1 = false → (b.restore_merkle_tree t).2 = b) := by
  by_cases h1 : t.verify = true <;>
    by_cases h2 : t.get_root_hash = b.merkle_tree.get_root_hash <;>
      simp [Block.restore_merkle_tree, h1, h2]

/-- Witness for C7 at a concrete input: a pruned single-leaf candidate with
root hash `[1]` does not match `chainBlock0`'s tree, so restoration fails
and the block is unchanged. -/
theorem restore_merkle_tree_gated_witness :
    (chainBlock0.restore_merkle_tree (MerkleTree.leaf [1] none)).1 = false ∧
    (chainBlock0.restore_merkle_tree (MerkleTree.leaf [1] none)).2 = chainBlock0 :=
  ⟨by decide,
   (restore_merkle_tree_gated chainBlock0 (MerkleTree.leaf [1] none)).2.2 (by decide)⟩

/-- Claim C9: when `MerkleTree::insert_subtree` returns false the tree is
completely unchanged — every false-returning branch hands back the tree it
matched, and the guarded recursive branches propagate this. -/
theorem insert_subtree_false_frame (t sub : MerkleTree)
    (hfalse : (MerkleTree.insert_subtree t sub).1 = false) :
    (MerkleTree.insert_subtree t sub).2 = t := by
  induction t with
  | leaf hh d =>
    by_cases hroot : (MerkleTree.leaf hh d).get_root_hash = sub.get_root_hash <;>
      simp [MerkleTree.insert_subtree, hroot] at hfalse ⊢
  | node hh l r ihl ihr =>
    by_cases hroot : (MerkleTree.node hh l r).get_root_hash = sub.get_root_hash
    · simp [MerkleTree.insert_subtree, hroot] at hfalse
    · by_cases hl : l.get_root_hash = sub.get_root_hash
      · simp [MerkleTree.insert_subtree, hroot, hl] at hfalse
      · by_cases hr : r.get_root_hash = sub.get_root_hash
        · simp [MerkleTree.insert_subtree, hroot, hl, hr] at hfalse
        · by_cases hcl : l.contains_hash sub.get_root_hash
          · simp [MerkleTree.insert_subtree, hroot, hl, hr, hcl] at hfalse ⊢
            exact ihl hfalse
          · by_cases hcr : r.contains_hash sub.get_root_hash <;>
              simp [MerkleTree.insert_subtree, hroot, hl, hr, hcl, hcr] at hfalse ⊢
            exact ihr hfalse

/-- Witness for C9 at a concrete input: inserting a pruned leaf with root
hash `[2]` into a pruned leaf with root hash `[1]` fails and leaves the tree
unchanged. -/
theorem insert_subtree_false_frame_witness :
    (MerkleTree.insert_subtree (MerkleTree.leaf [1] none) (MerkleTree.leaf [2] none)).1
      = false ∧
    (MerkleTree.insert_subtree (MerkleTree.leaf [1] none) (MerkleTree.leaf [2] none)).2
      = MerkleTree.leaf [1] none :=
  ⟨by decide,
   insert_subtree_false_frame (MerkleTree.leaf [1] none) (MerkleTree.leaf [2] none)
     (by decide)⟩

/-- Claim C10: `MerkleTree::forget_subtree` never changes the root hash —
collapsing at the root keeps the hash in the absent leaf, and the recursive
cases only rebuild children under the unchanged root node hash. -/
theorem forget_subtree_preserves_root_hash (h : SHAHash) (t : MerkleTree) :
    ((MerkleTree.forget_subtree h t).2).get_root_hash = t.get_root_hash := by
  cases t with
  | leaf hh d =>
    by_cases hr : h = (MerkleTree.leaf hh d).get_root_hash
    · simp [MerkleTree.forget_subtree, hr, MerkleTree.shrink_to_minimum,
        MerkleTree.get_root_hash]
    · unfold MerkleTree.forget_subtree
      rw [if_neg hr]
  | node hh l r =>
    by_cases hr : h = (MerkleTree.node hh l r).get_root_hash
    · simp [MerkleTree.forget_subtree, hr, MerkleTree.shrink_to_minimum,
        MerkleTree.get_root_hash]
    · unfold MerkleTree.forget_subtree
      rw [if_neg hr]
      by_cases hb : (MerkleTree.forget_subtree h l).1 = true <;>
        simp [hb, MerkleTree.get_root_hash]

/-- Helper: `restore_element` fills the leftmost leaf (pruned or present)
whose stored hash is `digest element`, succeeding exactly when such a leaf
exists, and leaves the tree unchanged otherwise. -/
theorem restore_element_eq (x : Bytes) (t : MerkleTree) :
    MerkleTree.restore_element x t =
      if MerkleTree.hasLeafWithHash (sha256Bytes x) t
      then (true, MerkleTree.fillLeftmostLeafWithHash (sha256Bytes x) x t)
      else (false, t) := by
  induction t with
  | leaf hh d =>
    by_cases hr : hh = sha256Bytes x <;>
      simp [MerkleTree.restore_element, MerkleTree.hasLeafWithHash,
        MerkleTree.fillLeftmostLeafWithHash, hr]
  | node hh l r ihl ihr =>
    by_cases hl : MerkleTree.hasLeafWithHash (sha256Bytes x) l
    · simp [MerkleTree.restore_element, MerkleTree.hasLeafWithHash,
        MerkleTree.fillLeftmostLeafWithHash, hl, ihl, ihr]
    · by_cases hr2 : MerkleTree.hasLeafWithHash (sha256Bytes x) r <;>
        simp [MerkleTree.restore_element, MerkleTree.hasLeafWithHash,
          MerkleTree.fillLeftmostLeafWithHash, hl, hr2, ihl, ihr]

/-- Claim C6, counterexample: on the valid tree `cexTree6` — left leaf
present with payload `[0]`, right leaf pruned, both carrying the stored hash
`digest [0]` — `restore_element [0]` matches the present left leaf first and
returns success with the tree unchanged, so the leftmost *absent* leaf whose
stored hash is `digest [0]` (the right leaf) is not filled, contrary to the
claim. -/
theorem restore_element_skips_absent_leaf :
    MerkleTree.restore_element [0] cexTree6 = (true, cexTree6) ∧
    cexTree6.verify = true ∧
    cexTree6 = MerkleTree.node (sha256Bytes (sha256Bytes [0] ++ sha256Bytes [0]))
      (MerkleTree.leaf (sha256Bytes [0]) (some [0]))
      (MerkleTree.leaf (sha256Bytes [0]) none) := by
  decide

/-- Claim C6, amended: `restore_element(item)` fills (overwrites) the payload
of the leftmost leaf — pruned or present — whose stored hash equals
`digest(item)`, and returns true; it returns false exactly when no leaf of
the tree has that stored hash, and in that case the tree is unchanged. -/
theorem restore_element_fills_leftmost_hash_leaf (x : Bytes) (t : MerkleTree) :
    MerkleTree.restore_element x t =
      if MerkleTree.hasLeafWithHash (sha256Bytes x) t
      then (true, MerkleTree.fillLeftmostLeafWithHash (sha256Bytes x) x t)
      else (false, t) :=
  restore_element_eq x t

/-- Helper: a failing `forget_leaf` call leaves the tree unchanged. -/
theorem forget_leaf_fst_false (x : Bytes) (t : MerkleTree)
    (hf : (MerkleTree.forget_leaf x t).1 = false) :
    (MerkleTree.forget_leaf x t).2 = t := by
  induction t with
  | leaf hh d =>
    cases d with
    | none => simp [MerkleTree.forget_leaf]
    | some v =>
      by_cases hv : v = x <;> simp [MerkleTree.forget_leaf, hv] at hf ⊢
  | node hh l r ihl ihr =>
    by_cases hbl : (MerkleTree.forget_leaf x l).1 = true
    · simp [MerkleTree.forget_leaf, hbl] at hf
    · have hl' : (MerkleTree.forget_leaf x l).1 = false := by
        simpa using hbl
      simp [MerkleTree.forget_leaf, hbl] at hf ⊢
      exact ⟨ihl hl', ihr hf⟩

/-- Helper: leaf-hash counts relate to `hasLeafWithHash`. -/
theorem hasLeafWithHash_eq_true_iff (h : SHAHash) (t : MerkleTree) :
    MerkleTree.hasLeafWithHash h t = true ↔ 0 < MerkleTree.leafHashCount h t := by
  induction t with
  | leaf hh d =>
    by_cases hr : hh = h <;>
      simp [MerkleTree.hasLeafWithHash, MerkleTree.leafHashCount, hr]
  | node hh l r ihl ihr =>
    simp [MerkleTree.hasLeafWithHash, MerkleTree.leafHashCount, ihl, ihr]

/-- Helper: with no leaf carrying `digest x`, `restore_element x` fails and
leaves the tree unchanged. -/
theorem restore_element_count_zero (x : Bytes) (t : MerkleTree)
    (h0 : MerkleTree.leafHashCount (sha256Bytes x) t = 0) :
    MerkleTree.restore_element x t = (false, t) := by
  rw [restore_element_eq, if_neg]
  rw [hasLeafWithHash_eq_true_iff]
  omega

/-- Helper: a verifying node's children verify. -/
theorem verify_node_parts (hh : SHAHash) (l r : MerkleTree)
    (hv : (MerkleTree.node hh l r).verify = true) :
    l.verify = true ∧ r.verify = true := by
  simp [MerkleTree.verify] at hv
  exact ⟨hv.2.1, hv.2.2⟩

/-- Helper: on a verifying tree, a successful `forget_leaf x` call implies
some leaf carries the stored hash `digest x` (the cleared one). -/
theorem forget_leaf_count_pos (x : Bytes) (t : MerkleTree)
    (hv : t.verify = true) (hf : (MerkleTree.forget_leaf x t).1 = true) :
    0 < MerkleTree.leafHashCount (sha256Bytes x) t := by
  induction t with
  | leaf hh d =>
    cases d with
    | none => simp [MerkleTree.forget_leaf] at hf
    | some v =>
      by_cases hvx : v = x
      · subst hvx
        have hh_eq : hh = sha256Bytes v := by
          simpa [MerkleTree.verify] using hv
        simp [MerkleTree.leafHashCount, hh_eq]
      · simp [MerkleTree.forget_leaf, hvx] at hf
  | node hh l r ihl ihr =>
    obtain ⟨hvl, hvr⟩ := verify_node_parts hh l r hv
    by_cases hbl : (MerkleTree.forget_leaf x l).1 = true
    · have := ihl hvl hbl
      simp [MerkleTree.leafHashCount]
      omega
    · have hfr : (MerkleTree.forget_leaf x r).1 = true := by
        simp [MerkleTree.forget_leaf, hbl] at hf
        exact hf
      have := ihr hvr hfr
      simp [MerkleTree.leafHashCount]
      omega

/-- Helper for claim C8: on a verifying tree with at most one leaf carrying
the stored hash `digest x`, a successful `forget_leaf x` followed by
`restore_element x` restores exactly the original tree. -/
theorem forget_restore_exact (x : Bytes) (t : MerkleTree)
    (hv : t.verify = true)
    (hc : MerkleTree.leafHashCount (sha256Bytes x) t ≤ 1)
    (hf : (MerkleTree.forget_leaf x t).1 = true) :
    MerkleTree.restore_element x (MerkleTree.forget_leaf x t).2 = (true, t) := by
  induction t with
  | leaf hh d =>
    cases d with
    | none => simp [MerkleTree.forget_leaf] at hf
    | some v =>
      by_cases hvx : v = x
      · subst hvx
        have hh_eq : hh = sha256Bytes v := by
          simpa [MerkleTree.verify] using hv
        simp [MerkleTree.forget_leaf, MerkleTree.restore_element, hh_eq]
      · simp [MerkleTree.forget_leaf, hvx] at hf
  | node hh l r ihl ihr =>
    obtain ⟨hvl, hvr⟩ := verify_node_parts hh l r hv
    have hcl : MerkleTree.leafHashCount (sha256Bytes x) l ≤ 1 := by
      simp [MerkleTree.leafHashCount] at hc
      omega
    have hcr : MerkleTree.leafHashCount (sha256Bytes x) r ≤ 1 := by
      simp [MerkleTree.leafHashCount] at hc
      omega
    by_cases hbl : (MerkleTree.forget_leaf x l).1 = true
    · have hrec := ihl hvl hcl hbl
      simp [MerkleTree.forget_leaf, hbl, MerkleTree.restore_element, hrec]
    · have hl' : (MerkleTree.forget_leaf x l).1 = false := by
        simpa using hbl
      have hlid : (MerkleTree.forget_leaf x l).2 = l := forget_leaf_fst_false x l hl'
      have hfr : (MerkleTree.forget_leaf x r).1 = true := by
        simp [MerkleTree.forget_leaf, hbl] at hf
        exact hf
      have hcr_pos := forget_leaf_count_pos x r hvr hfr
      have hcl0 : MerkleTree.leafHashCount (sha256Bytes x) l = 0 := by
        simp [MerkleTree.leafHashCount] at hc
        omega
      have hrl : MerkleTree.restore_element x l = (false, l) :=
        restore_element_count_zero x l hcl0
      have hrr := ihr hvr hcr hfr
      simp [MerkleTree.forget_leaf, hbl, MerkleTree.restore_element, hlid, hrl, hrr]

/-- Claim C8, counterexample: `cexTree8` is a valid tree whose pruned left
leaf and present rightmost leaf share the stored hash `digest [0]`.
`forget_leaf [0]` clears the rightmost leaf, but `restore_element [0]` then
fills the leftmost matching leaf — the pruned left one — so the stored-data
sequence comes back reordered: `[[0],[1]]` instead of `[[1],[0]]`. -/
theorem forget_restore_reorders_data :
    cexTree8.verify = true ∧
    (MerkleTree.forget_leaf [0] cexTree8).1 = true ∧
    (MerkleTree.restore_element [0]
        (MerkleTree.forget_leaf [0] cexTree8).2).2.get_currently_stored_data ≠
      cexTree8.get_currently_stored_data ∧
    cexTree8.get_currently_stored_data = [[1], [0]] ∧
    (MerkleTree.restore_element [0]
        (MerkleTree.forget_leaf [0] cexTree8).2).2.get_currently_stored_data =
      [[0], [1]] := by
  decide

/-- Claim C8, amended: provided the tree verifies and at most one of its
leaves carries the stored hash `digest x`, a successful `forget_leaf x`
followed by `restore_element x` restores exactly the original tree, so the
`get_currently_stored_data` sequence (order and multiset) equals the
pre-forget state. -/
theorem forget_restore_roundtrip (x : Bytes) (t : MerkleTree)
    (hv : t.verify = true)
    (hc : MerkleTree.leafHashCount (sha256Bytes x) t ≤ 1)
    (hf : (MerkleTree.forget_leaf x t).1 = true) :
    MerkleTree.restore_element x (MerkleTree.forget_leaf x t).2 = (true, t) ∧
    (MerkleTree.restore_element x
        (MerkleTree.forget_leaf x t).2).2.get_currently_stored_data =
      t.get_currently_stored_data := by
  have h := forget_restore_exact x t hv hc hf
  exact ⟨h, by rw [h]⟩

/-- Witness for C8 at a concrete input: forgetting and restoring `[0]` in
the valid single-leaf tree `chainTree0` restores it exactly. -/
theorem forget_restore_roundtrip_witness :
    chainTree0.verify = true ∧
    MerkleTree.leafHashCount (sha256Bytes [0]) chainTree0 ≤ 1 ∧
    (MerkleTree.forget_leaf [0] chainTree0).1 = true ∧
    MerkleTree.restore_element [0] (MerkleTree.forget_leaf [0] chainTree0).2 =
      (true, chainTree0) :=
  ⟨by decide, by decide, by decide,
   (forget_restore_roundtrip [0] chainTree0 (by decide) (by decide) (by decide)).1⟩

/-- Helper: a byte below 256 is zero exactly when its eight big-endian bit
positions are all zero. -/
theorem byte_zero_iff :
    ∀ b < 256, ((∀ j < 8, (b >>> (7 - j)) % 2 = 0) ↔ b = 0) := by
  decide

/-- Helper: the mask loop of `verify_nonce` checks exactly the top `r` bits
of the byte, for any byte below 256 and `r ≤ 8`. -/
theorem checkBitsLoop_iff :
    ∀ b < 256, ∀ r < 9,
      (Block.checkBitsLoop b 128 r = true ↔ ∀ j < r, (b >>> (7 - j)) % 2 = 0) := by
  decide

/-- Helper: the `take`/`any` test of `verify_nonce` fails exactly when the
first `n` positions (reading absent positions as the default 0) are zero. -/
theorem take_any_eq_false_iff (l : List Nat) (n : Nat) :
    ((l.take n).any (fun b => b ≠ 0) = false) ↔ ∀ k < n, l.getD k 0 = 0 := by
  induction l generalizing n with
  | nil => simp
  | cons a l ih =>
    cases n with
    | zero => simp
    | succ n =>
      simp only [List.take_succ_cons, List.any_cons, Bool.or_eq_false_iff, ih,
        decide_eq_false_iff_not, not_not]
      constructor
      · rintro ⟨h0, h1⟩ k hk
        cases k with
        | zero => simpa using h0
        | succ k => simpa using h1 k (by omega)
      · intro hs
        refine ⟨by simpa using hs 0 (by omega), fun k hk => ?_⟩
        simpa using hs (k + 1) (by omega)

/-- Helper: the first `M` bytes are zero exactly when the first `8 * M` bits
are zero (for in-range bytes below 256). -/
theorem bytesZero_iff_bitsZero (hash : Bytes) (M : Nat)
    (hbyte : ∀ k, k < M → hash.getD k 0 < 256) :
    (∀ k < M, hash.getD k 0 = 0) ↔ ∀ i < 8 * M, nthBitHigh hash i = 0 := by
  constructor
  · intro hb i hi
    have h8 : i / 8 < M := by omega
    unfold nthBitHigh
    rw [hb _ h8]
    simp
  · intro hbits k hk
    refine (byte_zero_iff _ (hbyte k hk)).mp ?_
    intro j hj
    have hb := hbits (8 * k + j) (by omega)
    unfold nthBitHigh at hb
    have e1 : (8 * k + j) / 8 = k := by omega
    have e2 : (8 * k + j) % 8 = j := by omega
    rw [e1, e2] at hb
    exact hb

/-- Helper: the byte-and-bit check of `verify_nonce` on a 32-byte hash with
in-range bytes is exactly "the first `z` bits are zero", for any difficulty
`z` in the `u8` range. -/
theorem checkLeadingZeros_iff (z : Nat) (hash : Bytes)
    (hlen : hash.length = 32) (hmem : ∀ b ∈ hash, b < 256) (hz : z < 256) :
    (Block.checkLeadingZeros z hash = true ↔ ∀ i < z, nthBitHigh hash i = 0) := by
  have hget : ∀ k, k ≤ 31 → hash.getD k 0 < 256 := by
    intro k hk
    have hkl : k < hash.length := by omega
    rw [List.getD_eq_getElem hash 0 hkl]
    exact hmem _ (List.getElem_mem hkl)
  have hTake : ((hash.take (z / 8)).any (fun byte => byte ≠ 0) = false) ↔
      ∀ i < 8 * (z / 8), nthBitHigh hash i = 0 := by
    rw [take_any_eq_false_iff]
    exact bytesZero_iff_bitsZero hash (z / 8) (fun k hk => hget k (by omega))
  by_cases hA : (hash.take (z / 8)).any (fun byte => byte ≠ 0) = true
  · have hL : Block.checkLeadingZeros z hash = false := by
      simp only [Block.checkLeadingZeros]
      rw [if_pos hA]
    rw [hL]
    constructor
    · intro h
      exact absurd h (by simp)
    · intro hbits
      have hb1 : ∀ i < 8 * (z / 8), nthBitHigh hash i = 0 := fun i hi =>
        hbits i (by omega)
      rw [hTake.mpr hb1] at hA
      exact absurd hA (by simp)
  · have hA' : (hash.take (z / 8)).any (fun byte => byte ≠ 0) = false := by
      simpa using hA
    by_cases hR : z % 8 = 0
    · have hL : Block.checkLeadingZeros z hash = true := by
        simp only [Block.checkLeadingZeros]
        rw [if_neg (by rw [hA']; exact Bool.false_ne_true), if_pos hR]
      rw [hL]
      constructor
      · intro _ i hi
        exact hTake.mp hA' i (by omega)
      · intro _
        rfl
    · have hL : Block.checkLeadingZeros z hash =
          Block.checkBitsLoop (hash.getD (z / 8) 0) 128 (z % 8) := by
        simp only [Block.checkLeadingZeros]
        rw [if_neg (by rw [hA']; exact Bool.false_ne_true), if_neg hR]
      have hN31 : z / 8 ≤ 31 := by omega
      have ebit : ∀ j, j < z % 8 →
          nthBitHigh hash (8 * (z / 8) + j) = (hash.getD (z / 8) 0 >>> (7 - j)) % 2 := by
        intro j hj
        unfold nthBitHigh
        have e1 : (8 * (z / 8) + j) / 8 = z / 8 := by omega
        have e2 : (8 * (z / 8) + j) % 8 = j := by omega
        rw [e1, e2]
      have hLoop := checkBitsLoop_iff (hash.getD (z / 8) 0) (hget _ hN31) (z % 8) (by omega)
      rw [hL]
      constructor
      · intro hloop i hi
        by_cases hi8 : i < 8 * (z / 8)
        · exact hTake.mp hA' i hi8
        · have hieq : i = 8 * (z / 8) + (i - 8 * (z / 8)) := by omega
          rw [hieq, ebit _ (by omega)]
          exact hLoop.mp hloop _ (by omega)
      · intro hbits
        refine hLoop.mpr (fun j hj => ?_)
        rw [← ebit j hj]
        exact hbits _ (by omega)

/-- Helper: a SHA-256 digest always has exactly 32 byte positions. -/
theorem sha256Bytes_length (msg : List Nat) : (sha256Bytes msg).length = 32 := by
  simp [sha256Bytes, stateToBytes, wordToBytes]

/-- Helper: every byte produced by `wordToBytes` is below 256. -/
theorem wordToBytes_lt (w : Nat) : ∀ b ∈ wordToBytes w, b < 256 := by
  intro b hb
  simp only [wordToBytes, List.mem_cons, List.not_mem_nil, or_false] at hb
  rcases hb with rfl | rfl | rfl | rfl <;> exact Nat.mod_lt _ (by omega)

/-- Helper: every byte of a SHA-256 digest is below 256. -/
theorem sha256Bytes_lt (msg : List Nat) : ∀ b ∈ sha256Bytes msg, b < 256 := by
  intro b hb
  simp only [sha256Bytes, stateToBytes, List.mem_append] at hb
  rcases hb with ((((((hb | hb) | hb) | hb) | hb) | hb) | hb) | hb <;>
    exact wordToBytes_lt _ _ hb

/-- Claim C4: for every block and every difficulty `z` in the `u8` range,
`verify_nonce` holds exactly when `calculate_hash` has at least `z` leading
zero bits — the first `z / 8` bytes are zero and, when `z % 8 > 0`, the top
`z % 8` bits of the next byte are zero as well. -/
theorem verify_nonce_iff_leading_zero_bits (b : Block) (z : Nat) (hz : z < 256) :
    Block.verify_nonce_with z b = true ↔
      ∀ i < z, nthBitHigh b.calculate_hash i = 0 :=
  checkLeadingZeros_iff z b.calculate_hash (sha256Bytes_length _)
    (sha256Bytes_lt _) hz

/-- Witness for C4 at a concrete input: the mined block `chainBlock0` passes
the difficulty-5 nonce check, hence its hash provably has five leading zero
bits. -/
theorem verify_nonce_iff_leading_zero_bits_witness :
    (5 : Nat) < 256 ∧ ∀ i < 5, nthBitHigh chainBlock0.calculate_hash i = 0 :=
  ⟨by decide,
   (verify_nonce_iff_leading_zero_bits chainBlock0 5 (by decide)).mp (by decide)⟩

end RustBlockchain
